import Mathlib

/-!
Verification of the sql-lsp completion engine and schema cache.

The definitions below are a shallow embedding of the Python sources
(src/sql_lsp/completion.py, mysql_connector.py, database.py, utils.py,
server.py).  Python dicts are embedded as insertion-ordered association
lists whose assignment overwrites in place; fallible Python code is
embedded with Except, the error string naming the exception class raised.
-/

namespace SqlLsp

instance {ε α : Type} [DecidableEq ε] [DecidableEq α] : DecidableEq (Except ε α) :=
  fun a b =>
    match a, b with
    | Except.ok x, Except.ok y => decidable_of_iff (x = y) (by simp)
    | Except.error x, Except.error y => decidable_of_iff (x = y) (by simp)
    | Except.ok _, Except.error _ => isFalse (by simp)
    | Except.error _, Except.ok _ => isFalse (by simp)

/-- An editor cursor position, zero-based line and character (LSP convention). -/
structure Position where
  line : Nat
  character : Nat
deriving Repr, DecidableEq

/-- Association list modelling a Python dict: insertion order is kept, and
assignment to an existing key overwrites the value in place while a new key
is appended at the end. -/
def dictInsert {α : Type} (k : String) (v : α) : List (String × α) → List (String × α)
  | [] => [(k, v)]
  | (k0, v0) :: rest => if k0 = k then (k0, v) :: rest else (k0, v0) :: dictInsert k v rest

/-- Lookup in the association-list dict, as Python d.get(k). -/
def dictGet {α : Type} (k : String) : List (String × α) → Option α
  | [] => none
  | (k0, v0) :: rest => if k0 = k then some v0 else dictGet k rest

/-- Read-modify-write on a defaultdict entry: d[k] is read (the default is
used when the key is absent, which also creates the entry) and replaced by
f of it, keeping the key order. -/
def dictUpdate {α : Type} (k : String) (f : α → α) (dflt : α) :
    List (String × α) → List (String × α)
  | [] => [(k, f dflt)]
  | (k0, v0) :: rest => if k0 = k then (k0, f v0) :: rest else (k0, v0) :: dictUpdate k f dflt rest

/-- Keys of the dict in insertion order (Python d.keys()). -/
def dictKeys {α : Type} (m : List (String × α)) : List String := m.map (·.1)

/-- Values of the dict in insertion order (Python d.values()). -/
def dictValues {α : Type} (m : List (String × α)) : List α := m.map (·.2)

theorem dictGet_dictInsert {α : Type} (k k' : String) (v : α) (m : List (String × α)) :
    dictGet k (dictInsert k' v m) = if k' = k then some v else dictGet k m := by
  induction m with
  | nil =>
    by_cases h : k' = k <;> simp [dictInsert, dictGet, h]
  | cons hd tl ih =>
    obtain ⟨k0, v0⟩ := hd
    by_cases h0 : k0 = k'
    · subst h0
      by_cases h : k0 = k <;> simp [dictInsert, dictGet, h]
    · by_cases h : k0 = k
      · subst h
        have hne : k' ≠ k0 := fun h' => h0 h'.symm
        simp [dictInsert, dictGet, h0, hne]
      · simp [dictInsert, dictGet, h0, h, ih]

theorem dictGet_dictUpdate {α : Type} (k k' : String) (f : α → α) (d : α)
    (m : List (String × α)) :
    dictGet k (dictUpdate k' f d m) =
      if k' = k then some (f ((dictGet k' m).getD d)) else dictGet k m := by
  induction m with
  | nil =>
    by_cases h : k' = k <;> simp [dictUpdate, dictGet, h]
  | cons hd tl ih =>
    obtain ⟨k0, v0⟩ := hd
    by_cases h0 : k0 = k'
    · subst h0
      by_cases h : k0 = k <;> simp [dictUpdate, dictGet, h]
    · by_cases h : k0 = k
      · subst h
        simp [dictUpdate, dictGet, h0, Ne.symm h0]
      · simp [dictUpdate, dictGet, h0, h, ih]

theorem dictKeys_dictInsert {α : Type} (k : String) (v : α) (m : List (String × α)) :
    dictKeys (dictInsert k v m) =
      if k ∈ dictKeys m then dictKeys m else dictKeys m ++ [k] := by
  induction m with
  | nil => simp [dictInsert, dictKeys]
  | cons hd tl ih =>
    obtain ⟨k0, v0⟩ := hd
    by_cases h0 : k0 = k
    · subst h0
      simp [dictInsert, dictKeys]
    · have hne : k ≠ k0 := fun h' => h0 h'.symm
      simp only [dictInsert, dictKeys, List.map_cons, if_neg h0] at ih ⊢
      rw [ih]
      by_cases hmem : k ∈ List.map Prod.fst tl <;>
        simp [dictKeys, hmem, hne] at ih ⊢

theorem dictKeys_nodup_dictInsert {α : Type} (k : String) (v : α) (m : List (String × α))
    (h : (dictKeys m).Nodup) : (dictKeys (dictInsert k v m)).Nodup := by
  rw [dictKeys_dictInsert]
  by_cases hmem : k ∈ dictKeys m
  · simpa [hmem] using h
  · simp only [hmem, if_false]
    simpa [List.nodup_append, hmem] using h

/-- Dataclass for a database table column (mysql_connector.ColumnInfo). -/
structure ColumnInfo where
  name : String
  type : String
  default : Option String
  nullable : String
  key : Option String
  table_name : String
deriving Repr, DecidableEq

/-- Dataclass for a database table (mysql_connector.TableInfo). -/
structure TableInfo where
  name : String
  description : String
deriving Repr, DecidableEq

/-- One row of the INFORMATION_SCHEMA.COLUMNS result consumed by
MySQLConnector._get_all_columns. -/
structure SchemaRow where
  TABLE_SCHEMA : String
  TABLE_NAME : String
  COLUMN_NAME : String
  COLUMN_DEFAULT : Option String
  IS_NULLABLE : String
  COLUMN_TYPE : String
  COLUMN_KEY : Option String
deriving Repr, DecidableEq

/-- The ColumnInfo built from one schema row, as constructed twice in the
loop body of _get_all_columns. -/
def rowColumnInfo (r : SchemaRow) : ColumnInfo :=
  { name := r.COLUMN_NAME, type := r.COLUMN_TYPE, default := r.COLUMN_DEFAULT,
    nullable := r.IS_NULLABLE, key := r.COLUMN_KEY, table_name := r.TABLE_NAME }

/-- The two column caches populated by MySQLConnector._get_all_columns:
column_cache is keyed by column name alone, table_column_map is the nested
defaultdict keyed by table then column name. -/
structure ColumnCaches where
  column_cache : List (String × ColumnInfo)
  table_column_map : List (String × List (String × ColumnInfo))
deriving Repr, DecidableEq

/-- One iteration of the row loop in _get_all_columns:
self.column_cache[COLUMN_NAME] = ColumnInfo(...) and
self.table_column_map[TABLE_NAME][COLUMN_NAME] = ColumnInfo(...). -/
def get_all_columns_step (st : ColumnCaches) (r : SchemaRow) : ColumnCaches :=
  { column_cache := dictInsert r.COLUMN_NAME (rowColumnInfo r) st.column_cache,
    table_column_map :=
      dictUpdate r.TABLE_NAME (dictInsert r.COLUMN_NAME (rowColumnInfo r)) []
        st.table_column_map }

/-- MySQLConnector._get_all_columns: iterate the INFORMATION_SCHEMA.COLUMNS
rows, populating both caches (they start empty in __init__). -/
def get_all_columns (rows : List SchemaRow) : ColumnCaches :=
  rows.foldl get_all_columns_step { column_cache := [], table_column_map := [] }

/-- Lookup in the nested table_column_map, as the read
self.table_column_map.get(table_name, {})[column_name] would see it. -/
def nestedGet (t c : String) (m : List (String × List (String × ColumnInfo))) :
    Option ColumnInfo :=
  dictGet c ((dictGet t m).getD [])

theorem nestedGet_step (t c : String) (r : SchemaRow)
    (m : List (String × List (String × ColumnInfo))) :
    nestedGet t c (dictUpdate r.TABLE_NAME (dictInsert r.COLUMN_NAME (rowColumnInfo r)) [] m) =
      if r.TABLE_NAME = t ∧ r.COLUMN_NAME = c then some (rowColumnInfo r)
      else nestedGet t c m := by
  unfold nestedGet
  rw [dictGet_dictUpdate]
  by_cases ht : r.TABLE_NAME = t
  · subst ht
    rw [if_pos rfl, Option.getD_some, dictGet_dictInsert]
    by_cases hc : r.COLUMN_NAME = c <;> simp [hc]
  · simp [ht]

theorem column_cache_foldl (rows : List SchemaRow) (init : ColumnCaches) (n : String) :
    dictGet n ((rows.foldl get_all_columns_step init).column_cache) =
      match (rows.filter (fun r => r.COLUMN_NAME == n)).getLast? with
      | some r => some (rowColumnInfo r)
      | none => dictGet n init.column_cache := by
  induction rows generalizing init with
  | nil => simp
  | cons r rest ih =>
    rw [List.foldl_cons, ih]
    by_cases hn : r.COLUMN_NAME = n
    · simp only [List.filter_cons, hn, beq_self_eq_true, if_pos]
      cases hfil : rest.filter (fun r => r.COLUMN_NAME == n) with
      | nil => simp [get_all_columns_step, dictGet_dictInsert, hn]
      | cons x xs =>
        rw [List.getLast?_cons_cons,
          List.getLast?_eq_getLast_of_ne_nil (l := x :: xs) (by simp)]
    · have hbeq : (r.COLUMN_NAME == n) = false := by simpa using hn
      simp only [List.filter_cons, hbeq, if_neg Bool.false_ne_true]
      cases hfil : rest.filter (fun r => r.COLUMN_NAME == n) with
      | nil => simp [get_all_columns_step, dictGet_dictInsert, hn]
      | cons x xs => rfl

theorem table_column_map_foldl (rows : List SchemaRow) (init : ColumnCaches)
    (t c : String) :
    nestedGet t c ((rows.foldl get_all_columns_step init).table_column_map) =
      match (rows.filter (fun r => r.TABLE_NAME == t && r.COLUMN_NAME == c)).getLast? with
      | some r => some (rowColumnInfo r)
      | none => nestedGet t c init.table_column_map := by
  induction rows generalizing init with
  | nil => simp
  | cons r rest ih =>
    rw [List.foldl_cons, ih]
    by_cases htc : r.TABLE_NAME = t ∧ r.COLUMN_NAME = c
    · have hbeq : (r.TABLE_NAME == t && r.COLUMN_NAME == c) = true := by
        simp [htc.1, htc.2]
      simp only [List.filter_cons, hbeq, if_pos]
      cases hfil : rest.filter (fun r => r.TABLE_NAME == t && r.COLUMN_NAME == c) with
      | nil =>
        obtain ⟨ht, hc⟩ := htc
        subst ht
        subst hc
        simp [get_all_columns_step, nestedGet_step]
      | cons x xs =>
        rw [List.getLast?_cons_cons,
          List.getLast?_eq_getLast_of_ne_nil (l := x :: xs) (by simp)]
    · have hbeq : (r.TABLE_NAME == t && r.COLUMN_NAME == c) = false := by
        rcases not_and_or.mp htc with h | h <;> simp [h]
      simp only [List.filter_cons, hbeq, if_neg Bool.false_ne_true]
      cases hfil : rest.filter (fun r => r.TABLE_NAME == t && r.COLUMN_NAME == c) with
      | nil => simp [get_all_columns_step, nestedGet_step, htc]
      | cons x xs => rfl

theorem column_cache_keys_nodup (rows : List SchemaRow) (init : ColumnCaches)
    (h : (dictKeys init.column_cache).Nodup) :
    (dictKeys ((rows.foldl get_all_columns_step init).column_cache)).Nodup := by
  induction rows generalizing init with
  | nil => simpa
  | cons r rest ih =>
    rw [List.foldl_cons]
    exact ih _ (dictKeys_nodup_dictInsert _ _ _ h)

/-- Character class of the last-word regex in get_last_word: a word
character or a backtick (character code 96), ASCII fragment. -/
def is_word_char (c : Char) : Bool :=
  c.isAlphanum || c == '_' || c.toNat == 96

/-- Case folding of a string to its lowercased character list. -/
def lower_chars (s : String) : List Char :=
  s.data.map Char.toLower

/-- Embeds re.match(re.compile(pattern, re.IGNORECASE), s) for pattern
strings made of word or backtick characters only: such a pattern holds no
regex metacharacter, so the anchored match succeeds exactly when s begins
with the pattern up to case. -/
def re_match_ci (pattern s : String) : Bool :=
  (lower_chars pattern).isPrefixOf (lower_chars s)

theorem isPrefixOf_iff_append (l₁ l₂ : List Char) :
    l₁.isPrefixOf l₂ = true ↔ ∃ t, l₂ = l₁ ++ t := by
  induction l₁ generalizing l₂ with
  | nil => simp [List.isPrefixOf]
  | cons a as ih =>
    cases l₂ with
    | nil => simp [List.isPrefixOf]
    | cons b bs =>
      simp only [List.isPrefixOf, Bool.and_eq_true, beq_iff_eq, ih, List.cons_append,
        List.cons.injEq]
      constructor
      · rintro ⟨hab, t, ht⟩
        exact ⟨t, hab.symm, ht⟩
      · rintro ⟨t, hab, ht⟩
        exact ⟨hab.symm, t, ht⟩

/-- A completion item as assembled in get_completion_candidates; the
sort_text field is the tier.  The kind and documentation fields are
presentation-only (CompletionItemKind constants and str renderings of the
infos) and are elided. -/
structure CompletionItem where
  label : String
  detail : String
  sort_text : String
deriving Repr, DecidableEq

/-- Column branch of the candidate list (completion.py lines 116-128):
columns whose name matches the compiled last word become Field items with
sort_text "0". -/
def column_completion_items (columns : List ColumnInfo) (last_word : String) :
    List CompletionItem :=
  (columns.filter (fun col => re_match_ci last_word col.name)).map
    (fun col =>
      { label := col.name, detail := col.table_name ++ " (column)", sort_text := "0" })

/-- Table branch of the candidate list (completion.py lines 133-145):
tables whose name matches become items with sort_text "1". -/
def table_completion_items (tables : List TableInfo) (last_word : String) :
    List CompletionItem :=
  (tables.filter (fun table => re_match_ci last_word table.name)).map
    (fun table =>
      { label := table.name, detail := "(table)", sort_text := "1" })

/-- Keyword candidates (completion.py line 149): keys of help_cache that
match the compiled last word. -/
def keyword_candidate_words (help_cache : List (String × String)) (last_word : String) :
    List String :=
  (dictKeys help_cache).filter (fun word => re_match_ci last_word word)

/-- MySQLConnector.get_columns: a truthy table_name selects the per-table
map (missing tables give the empty dict), otherwise the whole
column_cache is returned.  The default argument is the empty string. -/
def connector_get_columns (caches : ColumnCaches) (table_name : Option String) :
    List ColumnInfo :=
  match table_name with
  | some t => if t ≠ "" then dictValues ((dictGet t caches.table_column_map).getD [])
              else dictValues caches.column_cache
  | none => dictValues caches.column_cache

/-- DBConnection.get_columns: receives table_name but forwards to the
connector WITHOUT passing it, so the connector always runs with its
default table_name of the empty string. -/
def dbconn_get_columns (caches : ColumnCaches) (_table_name : Option String) :
    List ColumnInfo :=
  connector_get_columns caches (some "")

/-- Qualified Column branch of get_completion_candidates (lines 104-128):
table_name is the alias-resolution result (None when it failed) and the
column list is whatever dbconn.get_columns(table_name=table_name) gives. -/
def qualified_column_candidates (caches : ColumnCaches) (table_name : Option String)
    (last_word : String) : List CompletionItem :=
  column_completion_items (dbconn_get_columns caches table_name) last_word

/-- Modelled from the spec: the claimed tier-0 candidate set for a
qualified Column completion — entries of the per-table column map of the
resolved table whose name matches the partial word, and the empty set when
the alias failed to resolve.  This follows the spec sentence and the
DBConnection.get_columns docstring, for comparison with the code. -/
def spec_qualified_column_candidates (caches : ColumnCaches) (table_name : Option String)
    (last_word : String) : List CompletionItem :=
  match table_name with
  | some t =>
      column_completion_items (dictValues ((dictGet t caches.table_column_map).getD []))
        last_word
  | none => []

/-- A leaf token of the parsed query: its raw text and the 1-based line
and column of its pos_marker. -/
structure RawSeg where
  raw : String
  line_no : Nat
  line_pos : Nat
deriving Repr, DecidableEq

/-- Number of leading keys below x.  For a key-sorted list this is exactly
what Python's bisect_left with that key function computes; the token
sequences handed to get_segment_at_point are sorted by (line, column). -/
def bisect_left_nat (keys : List Nat) (x : Nat) : Nat :=
  (keys.takeWhile (fun k => decide (k < x))).length

/-- Offset of the final loop-variable value within a nonempty scanned
suffix: the loop for i in range(start, len): if line_no != target: break
leaves i at the first break position, or at the last index when it runs
off the end without breaking. -/
def scan_k (target : Nat) : List RawSeg → Nat
  | [] => 0
  | [_] => 0
  | s :: s' :: rest => if s.line_no ≠ target then 0 else scan_k target (s' :: rest) + 1

/-- The final value of the loop variable i after
for i in range(start, len(segments)): if segments[i].pos_marker.line_no != target: break.
None models the NameError of reading i when the range was empty (i was
never bound). -/
def scan_final_i (segments : List RawSeg) (target : Nat) (start : Nat) : Option Nat :=
  match segments.drop start with
  | [] => none
  | s :: rest => some (start + scan_k target (s :: rest))

/-- Python list indexing, with negative indices counting from the end and
None modelling an IndexError. -/
def pyIndex {α : Type} (l : List α) (i : Int) : Option α :=
  if i < 0 then
    if i + l.length < 0 then none else l.get? (i + l.length).toNat
  else l.get? i.toNat

/-- completion.py get_segment_at_point, with Except modelling the raised
exceptions: NameError for the unbound loop variable, IndexError for an
out-of-range (negative past the front) list subscript.  The returned index
line_start_idx + segment_idx is an int in Python and may be negative. -/
def get_segment_at_point (segments : List RawSeg) (pos : Position) :
    Except String (Option RawSeg × Int) :=
  let line_start_idx := bisect_left_nat (segments.map (·.line_no)) (pos.line + 1)
  if segments.isEmpty then Except.ok (none, 0)
  else
    match scan_final_i segments (pos.line + 1) line_start_idx with
    | none => Except.error "NameError"
    | some line_end_idx =>
      let line_segments := (segments.take line_end_idx).drop line_start_idx
      let segment_idx : Int :=
        if line_segments.length ≠ 1 then
          (bisect_left_nat (line_segments.map (·.line_pos)) (pos.character + 1) : Int) - 1
        else 0
      match pyIndex line_segments segment_idx with
      | none => Except.error "IndexError"
      | some s => Except.ok (some s, (line_start_idx : Int) + segment_idx)

theorem bisect_left_nat_le_length (keys : List Nat) (x : Nat) :
    bisect_left_nat keys x ≤ keys.length := by
  unfold bisect_left_nat
  exact (List.takeWhile_sublist _).length_le

theorem bisect_left_nat_eq (keys : List Nat) (x j : Nat) (y : Nat)
    (hj : keys.get? j = some y) (hy : ¬ y < x)
    (hb : ∀ i < j, ∀ z, keys.get? i = some z → z < x) :
    bisect_left_nat keys x = j := by
  induction keys generalizing j with
  | nil => simp at hj
  | cons k rest ih =>
    cases j with
    | zero =>
      simp only [List.get?_cons_zero, Option.some.injEq] at hj
      subst hj
      simp [bisect_left_nat, List.takeWhile, hy]
    | succ j' =>
      have hk : k < x := hb 0 (Nat.succ_pos _) k rfl
      simp only [List.get?_cons_succ] at hj
      have ih' := ih j' hj
        (fun i hi z hz => hb (i + 1) (Nat.succ_lt_succ hi) z hz)
      simp only [bisect_left_nat, List.takeWhile, decide_eq_true hk, List.length_cons]
      unfold bisect_left_nat at ih'
      omega

/-- Longest run of word or backtick characters at the end of the
character list. -/
def trailing_word_run (s : List Char) : List Char :=
  (s.reverse.takeWhile is_word_char).reverse

/-- Embeds re.findall of the anchored trailing word-run pattern: the
dollar anchor matches at the end of the string and also just before one
trailing newline, so a trailing newline is ignored; the one maximal run
ending there is the only possible match. -/
def last_word_matches (line_before_cursor : List Char) : List (List Char) :=
  let base :=
    if line_before_cursor.getLast? = some '\n' then line_before_cursor.dropLast
    else line_before_cursor
  let run := trailing_word_run base
  if run.isEmpty then [] else [run]

/-- completion.py get_last_word: the line is document.lines[pos.line]
(IndexError when the document has no such line) cut at the cursor
character; the last regex match is taken, with the literal "*" fallback
when there is none. -/
def get_last_word (lines : List String) (pos : Position) : Except String String :=
  match lines.get? pos.line with
  | none => Except.error "IndexError"
  | some line =>
    let word_matches := last_word_matches (line.data.take pos.character)
    Except.ok (String.mk ((word_matches.getLast?).getD "*".data))

/-- Lines 84-86 of get_completion_candidates: the candidate-matching
pattern is compiled directly from get_last_word's result, with
re.IGNORECASE as the only flag; nothing is escaped or changed. -/
def get_completion_candidates_regex (lines : List String) (pos : Position) :
    Except String String :=
  match get_last_word lines pos with
  | Except.error e => Except.error e
  | Except.ok w => Except.ok w

/-- One from_expression_element of the serialised parse record: the
naked_identifier of its alias_expression (the empty string when absent,
matching the chained dict.get defaults) and the naked_identifier leaves
found inside its table_expression, in document order. -/
structure FromExpressionElement where
  alias_identifier : String
  table_identifiers : List String
deriving Repr, DecidableEq

/-- Python list[-1] on a possibly-empty list: IndexError when empty. -/
def pyLastString (l : List String) : Except String String :=
  match l.getLast? with
  | some x => Except.ok x
  | none => Except.error "IndexError"

/-- completion.py _get_alias_table_name: walk the from_expression_element
list in document order; on the first element whose alias identifier
equals the extracted alias, return the last naked_identifier of its
table_expression; None when no alias matches. -/
def get_alias_table_name (alias_str : String) :
    List FromExpressionElement → Except String (Option String)
  | [] => Except.ok none
  | e :: rest =>
    if e.alias_identifier = alias_str then (pyLastString e.table_identifiers).map some
    else get_alias_table_name alias_str rest

/-- Class of a top-level child of the parsed file, as tested by the
isinstance checks of get_query_statements. -/
inductive SegKind where
  | statement
  | unparsable
  | other
deriving Repr, DecidableEq

/-- A top-level segment of the parsed document: its class and the 1-based
start and end line of its source span (get_start_loc / get_end_loc). -/
structure TopSegment where
  kind : SegKind
  start_line : Nat
  end_line : Nat
  raw : String
deriving Repr, DecidableEq

/-- utils.py get_query_statements: keep the segments that are
StatementSegment or UnparsableSegment instances, in order. -/
def get_query_statements (segments : List TopSegment) : List TopSegment :=
  segments.filter (fun s => s.kind == SegKind.statement || s.kind == SegKind.unparsable)

/-- The containment test of get_current_query_statement:
start_line <= cursor_position line + 1 <= end_line (all 1-based after the
conversion). -/
def statement_contains_line (s : TopSegment) (cursor_line : Nat) : Bool :=
  decide (s.start_line ≤ cursor_line + 1) && decide (cursor_line + 1 ≤ s.end_line)

/-- utils.py get_current_query_statement: linear scan returning the first
statement span containing the converted cursor line, None when no span
does (the implicit fall-through return). -/
def get_current_query_statement (segments : List TopSegment) (cursor_line : Nat) :
    Option TopSegment :=
  (get_query_statements segments).find? (fun s => statement_contains_line s cursor_line)

/-- Outcome of one attempt at cursor.execute plus row iteration inside the
try block of MySQLConnector.execute_query: the rows appended before the
attempt either completed or raised. -/
structure AttemptResult where
  rows : List String
  failure : Option String
deriving Repr, DecidableEq

/-- MySQLConnector.execute_query.  reconnect_start is the outcome of the
connection.reconnect() opening the try block; reconnect_recover is the
outcome of connection.reconnect(attempts=2) in the except handler, which
can itself raise and then propagates.  The second component counts how
many times the recovery reconnect ran.  Note the rows list is NOT reset in
the handler: rows appended before the failure stay in the returned pair. -/
def mysql_execute_query (reconnect_start : Except String Unit)
    (attempt : AttemptResult) (reconnect_recover : Except String Unit) :
    Except String (List String × Option String) × Nat :=
  match reconnect_start with
  | Except.error e =>
    (match reconnect_recover with
     | Except.error e2 => Except.error e2
     | Except.ok _ => Except.ok ([], some e), 1)
  | Except.ok _ =>
    match attempt.failure with
    | none => (Except.ok (attempt.rows, none), 0)
    | some e =>
      (match reconnect_recover with
       | Except.error e2 => Except.error e2
       | Except.ok _ => Except.ok (attempt.rows, some e), 1)

/-- Stand-in for the external tabulate rendering of utils.tabulate_result;
the claims only depend on which rows reach it, not on the layout. -/
def tabulate_result (rows : List String) : String :=
  String.intercalate "\n" rows

/-- The tail of server.py execute_query after the connector call: a raised
exception propagates; otherwise an error is surfaced as str(error) (the
message string) and the rows are rendered only when error is None. -/
def server_execute_query (connector_result : Except String (List String × Option String)) :
    Except String String :=
  match connector_result with
  | Except.error e => Except.error e
  | Except.ok (_, some err) => Except.ok err
  | Except.ok (rows, none) => Except.ok (tabulate_result rows)

/-- Outcome of reading .sql-ls/config.json at the top of lsp_initialize. -/
inductive ConfigRead where
  | ok (first_connection : String)
  | fileNotFound
  | otherError (e : String)
deriving Repr, DecidableEq

/-- The server-side database state produced by a successful
MySQLConnector.__init__ (the caches generate_caches filled in). -/
structure DbState where
  help_cache : List (String × String)
  caches : ColumnCaches
deriving Repr, DecidableEq

/-- MySQLConnector.__init__: mysql.connector.connect is called with no
surrounding try before any cache exists, so a connect failure propagates
to the caller; on success generate_caches fills the caches. -/
def mysql_connector_init (connect : Except String Unit) (generated : DbState) :
    Except String DbState :=
  match connect with
  | Except.error e => Except.error e
  | Except.ok _ => Except.ok generated

/-- server.py lsp_initialize: the try/except covers only the config-file
read.  FileNotFoundError is caught and dbconn simply stays None; other
read errors are re-raised; the else branch constructing DBConnection runs
OUTSIDE the except clauses, so a connector exception propagates out of
lsp_initialize. -/
def lsp_initialize (config_read : ConfigRead) (connect : Except String Unit)
    (generated : DbState) : Except String (Option DbState) :=
  match config_read with
  | ConfigRead.fileNotFound => Except.ok none
  | ConfigRead.otherError e => Except.error e
  | ConfigRead.ok _ =>
    match mysql_connector_init connect generated with
    | Except.error e => Except.error e
    | Except.ok st => Except.ok (some st)

/-- The completions handler: get_completion_candidates starts with
keywords = dbconn.connector.help_cache, so a None dbconn raises
AttributeError before any candidate can be produced; with a connection the
keyword candidates are always reachable. -/
def completions_request (dbconn : Option DbState) (last_word : String) :
    Except String (List String) :=
  match dbconn with
  | none => Except.error "AttributeError"
  | some st => Except.ok (keyword_candidate_words st.help_cache last_word)

theorem get?_map_line_no (l : List RawSeg) (n : Nat) :
    (l.map (·.line_no)).get? n = (l.get? n).map (·.line_no) := by
  simp [List.get?_eq_getElem?, List.getElem?_map]

theorem scan_k_head_ne (target : Nat) (s : RawSeg) (rest : List RawSeg)
    (h : s.line_no ≠ target) : scan_k target (s :: rest) = 0 := by
  cases rest <;> simp [scan_k, h]

theorem drop_eq_cons_of_get? (l : List RawSeg) (j : Nat) (s : RawSeg)
    (h : l.get? j = some s) : l.drop j = s :: l.drop (j + 1) := by
  obtain ⟨hlt, hget⟩ := List.get?_eq_some.mp h
  rw [List.drop_eq_getElem_cons hlt]
  simp [← hget]

theorem take_succ_drop_self (l : List RawSeg) (j : Nat) (s : RawSeg)
    (h : l.get? j = some s) : (l.take (j + 1)).drop j = [s] := by
  obtain ⟨hlt, hget⟩ := List.get?_eq_some.mp h
  have htake : l.take (j + 1) = l.take j ++ [s] := by
    rw [List.take_succ]
    rw [List.get?_eq_getElem?] at h
    simp [h]
  have hlen : (l.take j).length = j := by
    rw [List.length_take]
    omega
  rw [htake]
  have hdl := List.drop_left (l.take j) [s]
  rw [hlen] at hdl
  exact hdl

/-- Claim C3 (counterexample): get_segment_at_point does throw: with a
single token on line 1 and the cursor on line 6, the loop range is empty
and reading the loop variable raises NameError. -/
theorem claim3_counterexample :
    get_segment_at_point [⟨"select", 1, 1⟩] ⟨5, 0⟩ = Except.error "NameError" := by
  rfl

/-- Claim C3 (amended): an empty token sequence yields (none, 0), but
get_segment_at_point is not total: for a nonempty token sequence in which
no token lies on the cursor's converted 1-based line, it raises (NameError
when the cursor line is past every token, IndexError otherwise), so
get_completion_candidates propagates an exception rather than returning an
empty list. -/
theorem claim3_amended :
    (∀ pos, get_segment_at_point [] pos = Except.ok (none, 0))
    ∧ (∀ (segments : List RawSeg) (pos : Position), segments ≠ [] →
        (∀ s ∈ segments, s.line_no ≠ pos.line + 1) →
        ∃ e, get_segment_at_point segments pos = Except.error e) := by
  constructor
  · intro pos
    rfl
  · intro segments pos hne hall
    have hlb_le : bisect_left_nat (segments.map (·.line_no)) (pos.line + 1)
        ≤ segments.length := by
      have h := bisect_left_nat_le_length (segments.map (·.line_no)) (pos.line + 1)
      simpa using h
    have hempty : segments.isEmpty = false := List.isEmpty_eq_false.mpr hne
    rcases Nat.lt_or_ge (bisect_left_nat (segments.map (·.line_no)) (pos.line + 1))
        segments.length with hlt | hge
    · -- the lower bound lands on a token, which is off the cursor line:
      -- the loop breaks at once, the line slice is empty, and the
      -- subscript line_segments[-1] raises IndexError
      refine ⟨"IndexError", ?_⟩
      have hget : segments.get?
          (bisect_left_nat (segments.map (·.line_no)) (pos.line + 1))
          = some (segments.get ⟨_, hlt⟩) := by
        simp [List.get?_eq_some]
      have hmem : segments.get ⟨_, hlt⟩ ∈ segments := segments.get_mem _ _
      have hlinene : (segments.get ⟨_, hlt⟩).line_no ≠ pos.line + 1 :=
        hall _ hmem
      have hdrop := drop_eq_cons_of_get? segments _ _ hget
      have hscan : scan_final_i segments (pos.line + 1)
          (bisect_left_nat (segments.map (·.line_no)) (pos.line + 1))
          = some (bisect_left_nat (segments.map (·.line_no)) (pos.line + 1)) := by
        rw [scan_final_i, hdrop]
        have h0 := scan_k_head_ne (pos.line + 1) _
          (segments.drop (bisect_left_nat (segments.map (·.line_no)) (pos.line + 1) + 1))
          hlinene
        simp only [hdrop, h0, Nat.add_zero]
      have hslice : (segments.take
            (bisect_left_nat (segments.map (·.line_no)) (pos.line + 1))).drop
            (bisect_left_nat (segments.map (·.line_no)) (pos.line + 1)) = [] := by
        apply List.drop_eq_nil_of_le
        rw [List.length_take]
        omega
      simp only [get_segment_at_point, hempty, Bool.false_eq_true, if_false, hscan,
        hslice]
      rfl
    · -- the lower bound is past the end: the loop range is empty and the
      -- loop variable is unbound, a NameError
      refine ⟨"NameError", ?_⟩
      have heq : bisect_left_nat (segments.map (·.line_no)) (pos.line + 1)
          = segments.length := le_antisymm hlb_le hge
      have hdrop : segments.drop
          (bisect_left_nat (segments.map (·.line_no)) (pos.line + 1)) = [] := by
        rw [heq, List.drop_length]
      have hscan : scan_final_i segments (pos.line + 1)
          (bisect_left_nat (segments.map (·.line_no)) (pos.line + 1)) = none := by
        rw [scan_final_i, hdrop]
      simp only [get_segment_at_point, hempty, Bool.false_eq_true, if_false, hscan]

/-- Claim C3 (witness): the amended statement at concrete inputs. -/
theorem claim3_witness :
    get_segment_at_point [] ⟨0, 0⟩ = Except.ok (none, 0)
    ∧ ∃ e, get_segment_at_point [⟨"select", 1, 1⟩, ⟨"name", 3, 1⟩] ⟨1, 4⟩
        = Except.error e :=
  ⟨claim3_amended.1 ⟨0, 0⟩,
   claim3_amended.2 [⟨"select", 1, 1⟩, ⟨"name", 3, 1⟩] ⟨1, 4⟩ (by decide)
     (by decide)⟩

/-- Claim C4 (counterexample): with tokens on lines 1 and 2 and the cursor
on line 2, that line holds exactly one token, yet the resolver raises
IndexError: the scan never breaks, so the last token is excluded from the
line slice, which comes out empty. -/
theorem claim4_counterexample :
    (([⟨"select", 1, 1⟩, ⟨"u", 2, 1⟩] : List RawSeg).filter
        (fun s => s.line_no == 2)).length = 1
    ∧ get_segment_at_point [⟨"select", 1, 1⟩, ⟨"u", 2, 1⟩] ⟨1, 0⟩
        = Except.error "IndexError" := by
  constructor
  · rfl
  · rfl

/-- Claim C4 (amended): when the cursor's line holds exactly one token and
that token is not the last of the sequence (every earlier token lies on an
earlier line and the next token lies on a different line), the resolver
returns that token with its global index, regardless of the cursor's
character offset. -/
theorem claim4_amended (segments : List RawSeg) (l c j : Nat) (s : RawSeg)
    (hj : segments.get? j = some s) (hline : s.line_no = l + 1)
    (hbefore : ∀ i < j, ∀ u, segments.get? i = some u → u.line_no < l + 1)
    (hnext : ∃ u, segments.get? (j + 1) = some u ∧ u.line_no ≠ l + 1) :
    get_segment_at_point segments ⟨l, c⟩ = Except.ok (some s, (j : Int)) := by
  obtain ⟨u, hu, hune⟩ := hnext
  have hjlt : j < segments.length := (List.get?_eq_some.mp hj).1
  have hempty : segments.isEmpty = false :=
    List.isEmpty_eq_false.mpr (List.ne_nil_of_length_pos (by omega))
  have hlb : bisect_left_nat (segments.map (·.line_no)) (l + 1) = j := by
    apply bisect_left_nat_eq _ _ j s.line_no
    · rw [get?_map_line_no, hj]
      rfl
    · omega
    · intro i hi z hz
      rw [get?_map_line_no] at hz
      obtain ⟨v, hv, hvz⟩ := Option.map_eq_some'.mp hz
      rw [← hvz]
      exact hbefore i hi v hv
  have hdrop : segments.drop j = s :: u :: segments.drop (j + 2) := by
    rw [drop_eq_cons_of_get? segments j s hj, drop_eq_cons_of_get? segments (j + 1) u hu]
  have hscan : scan_final_i segments (l + 1) j = some (j + 1) := by
    rw [scan_final_i, hdrop]
    have hsl : ¬ s.line_no ≠ l + 1 := by omega
    simp only [scan_k, hsl, if_false, scan_k_head_ne _ _ _ hune]
  have hslice := take_succ_drop_self segments j s hj
  simp only [get_segment_at_point, hempty, Bool.false_eq_true, if_false, hlb, hscan,
    hslice]
  simp [pyIndex]

/-- Claim C4 (witness): the amended statement at a concrete input, with a
character offset far past the token. -/
theorem claim4_witness :
    get_segment_at_point [⟨"select", 1, 1⟩, ⟨"u", 2, 3⟩, ⟨"from", 3, 1⟩] ⟨1, 9⟩
      = Except.ok (some ⟨"u", 2, 3⟩, (1 : Int)) :=
  claim4_amended [⟨"select", 1, 1⟩, ⟨"u", 2, 3⟩, ⟨"from", 3, 1⟩] 1 9 1 ⟨"u", 2, 3⟩
    rfl rfl
    (by
      intro i hi t ht
      interval_cases i
      simp only [List.get?_cons_zero, Option.some.injEq] at ht
      rw [← ht]
      decide)
    ⟨⟨"from", 3, 1⟩, rfl, by decide⟩

/-- Claim C1 (code bug): qualified Column completion is never scoped to
the resolved table.  DBConnection.get_columns drops its table_name
argument, so with tables t1(c1) and t2(c2) and the alias resolved to t1,
the tier-0 candidates include c2 from t2, where the claim (and the
DBConnection.get_columns docstring) require exactly the columnsByTable[t1]
entries; with an unresolved alias the code again returns every column
instead of the claimed empty set. -/
theorem claim1_code_bug :
    qualified_column_candidates
        (get_all_columns
          [⟨"db", "t1", "c1", none, "NO", "int", none⟩,
           ⟨"db", "t2", "c2", none, "NO", "int", none⟩])
        (some "t1") "c"
      = [⟨"c1", "t1 (column)", "0"⟩, ⟨"c2", "t2 (column)", "0"⟩]
    ∧ spec_qualified_column_candidates
        (get_all_columns
          [⟨"db", "t1", "c1", none, "NO", "int", none⟩,
           ⟨"db", "t2", "c2", none, "NO", "int", none⟩])
        (some "t1") "c"
      = [⟨"c1", "t1 (column)", "0"⟩]
    ∧ qualified_column_candidates
        (get_all_columns
          [⟨"db", "t1", "c1", none, "NO", "int", none⟩,
           ⟨"db", "t2", "c2", none, "NO", "int", none⟩])
        none "c"
      = [⟨"c1", "t1 (column)", "0"⟩, ⟨"c2", "t2 (column)", "0"⟩]
    ∧ spec_qualified_column_candidates
        (get_all_columns
          [⟨"db", "t1", "c1", none, "NO", "int", none⟩,
           ⟨"db", "t2", "c2", none, "NO", "int", none⟩])
        none "c"
      = [] := by
  refine ⟨?_, ?_, ?_, ?_⟩ <;> decide

/-- Claim C5 (code bug): with a readable config but an unreachable
database, the connect exception propagates out of lsp_initialize (the
try/except covers only the config-file read, and DBConnection is built in
the uncovered else branch), so initialization crashes rather than
degrading; dbconn stays None and a completion request then raises
AttributeError instead of returning keyword candidates. -/
theorem claim5_code_bug :
    lsp_initialize (ConfigRead.ok "default")
        (Except.error "MySQL server unreachable") ⟨[], ⟨[], []⟩⟩
      = Except.error "MySQL server unreachable"
    ∧ completions_request none "sel" = Except.error "AttributeError" :=
  ⟨rfl, rfl⟩

/-- Claim C6 (counterexample): when the recovery reconnect in the except
handler also fails, its exception propagates out of execute_query and past
the server command boundary — the failure is a raised exception there, not
a returned display string. -/
theorem claim6_counterexample :
    server_execute_query
        (mysql_execute_query (Except.error "Lost connection to MySQL server")
          ⟨[], none⟩ (Except.error "InterfaceError")).1
      = Except.error "InterfaceError" := rfl

/-- Claim C6 (amended): on a query failure exactly one recovery reconnect
call (itself bounded to 2 attempts) is made; when it succeeds, the
connector returns the partially-consumed rows TOGETHER with the error —
they are discarded only at the server boundary, which surfaces str(error)
alone; and when the recovery reconnect also fails, the exception is raised
past the engine boundary. -/
theorem claim6_amended (rows : List String) (e : String) :
    (mysql_execute_query (Except.ok ()) ⟨rows, some e⟩ (Except.ok ())).2 = 1
    ∧ (mysql_execute_query (Except.ok ()) ⟨rows, some e⟩ (Except.ok ())).1
        = Except.ok (rows, some e)
    ∧ server_execute_query
        (mysql_execute_query (Except.ok ()) ⟨rows, some e⟩ (Except.ok ())).1
        = Except.ok e
    ∧ (∀ e2, server_execute_query
          (mysql_execute_query (Except.ok ()) ⟨rows, some e⟩ (Except.error e2)).1
          = Except.error e2)
    ∧ (mysql_execute_query (Except.ok ()) ⟨rows, none⟩ (Except.ok ())).1
        = Except.ok (rows, none) :=
  ⟨rfl, rfl, rfl, fun _ => rfl, rfl⟩

/-- Claim C6 (witness): the amended statement at a concrete input. -/
theorem claim6_witness :
    (mysql_execute_query (Except.ok ()) ⟨["row1"], some "Query error"⟩
        (Except.ok ())).2 = 1
    ∧ (mysql_execute_query (Except.ok ()) ⟨["row1"], some "Query error"⟩
        (Except.ok ())).1 = Except.ok (["row1"], some "Query error")
    ∧ server_execute_query
        (mysql_execute_query (Except.ok ()) ⟨["row1"], some "Query error"⟩
          (Except.ok ())).1 = Except.ok "Query error"
    ∧ (∀ e2, server_execute_query
          (mysql_execute_query (Except.ok ()) ⟨["row1"], some "Query error"⟩
            (Except.error e2)).1 = Except.error e2)
    ∧ (mysql_execute_query (Except.ok ()) ⟨["row1"], none⟩ (Except.ok ())).1
        = Except.ok (["row1"], none) :=
  claim6_amended ["row1"] "Query error"

/-- Claim C2 (counterexample): with two FROM elements both aliased u, the
code returns the table of the FIRST matching element, not the last as the
claim states. -/
theorem claim2_counterexample :
    get_alias_table_name "u" [⟨"u", ["orders"]⟩, ⟨"u", ["users"]⟩]
      = Except.ok (some "orders")
    ∧ get_alias_table_name "u" [⟨"u", ["orders"]⟩, ⟨"u", ["users"]⟩]
      ≠ Except.ok (some "users") := by
  constructor
  · rfl
  · decide

/-- Claim C2 (amended): _get_alias_table_name returns the LAST
naked_identifier of the table expression of the FIRST FROM-clause element
in document order whose alias identifier equals the extracted alias (an
IndexError is raised when that element's table expression holds no
identifier), and returns None exactly when no element's alias matches. -/
theorem claim2_amended (alias_str : String) (elems : List FromExpressionElement) :
    (get_alias_table_name alias_str elems = Except.ok none ↔
      ∀ e ∈ elems, e.alias_identifier ≠ alias_str)
    ∧ (∀ (e₁ : FromExpressionElement) (front back : List FromExpressionElement),
        elems = front ++ e₁ :: back →
        (∀ e ∈ front, e.alias_identifier ≠ alias_str) →
        e₁.alias_identifier = alias_str →
        get_alias_table_name alias_str elems
          = (pyLastString e₁.table_identifiers).map some) := by
  constructor
  · induction elems with
    | nil => simp [get_alias_table_name]
    | cons e rest ih =>
      by_cases he : e.alias_identifier = alias_str
      · cases htl : e.table_identifiers.getLast? <;>
          simp [get_alias_table_name, he, pyLastString, htl, Except.map]
      · simp [get_alias_table_name, he, ih]
  · intro e₁ front back heq hfront he₁
    subst heq
    induction front with
    | nil => simp [get_alias_table_name, he₁]
    | cons a front ih =>
      have ha : a.alias_identifier ≠ alias_str := hfront a (by simp)
      rw [List.cons_append, get_alias_table_name, if_neg ha]
      exact ih (fun e he => hfront e (by simp [he]))

/-- Claim C2 (witness): the amended statement at concrete inputs — the
first (here only) matching element wins and the last identifier inside its
table expression (users of db.users) is returned; an alias matching no
element gives None. -/
theorem claim2_witness :
    get_alias_table_name "u"
        [⟨"hk", ["help_keyword"]⟩, ⟨"u", ["db", "users"]⟩]
      = Except.ok (some "users")
    ∧ get_alias_table_name "z"
        [⟨"hk", ["help_keyword"]⟩, ⟨"u", ["db", "users"]⟩]
      = Except.ok none := by
  constructor
  · have h := (claim2_amended "u"
        [⟨"hk", ["help_keyword"]⟩, ⟨"u", ["db", "users"]⟩]).2
      ⟨"u", ["db", "users"]⟩ [⟨"hk", ["help_keyword"]⟩] [] rfl (by decide) rfl
    simpa [pyLastString, Except.map] using h
  · exact (claim2_amended "z"
      [⟨"hk", ["help_keyword"]⟩, ⟨"u", ["db", "users"]⟩]).1.mpr (by decide)

/-- Claim C9: after _get_all_columns runs, column_cache holds at most one
entry per column name (its keys are nodup) and each lookup returns the
info of the LAST schema row with that column name (last write wins across
tables); table_column_map keeps a distinct entry per (table, column) pair,
each holding the last row of that exact pair, and in particular every row
of the result set has its (table, column) entry present. -/
theorem claim9 (rows : List SchemaRow) :
    (dictKeys (get_all_columns rows).column_cache).Nodup
    ∧ (∀ n, dictGet n (get_all_columns rows).column_cache
        = ((rows.filter (fun r => r.COLUMN_NAME == n)).getLast?).map rowColumnInfo)
    ∧ (∀ t c, nestedGet t c (get_all_columns rows).table_column_map
        = ((rows.filter
            (fun r => r.TABLE_NAME == t && r.COLUMN_NAME == c)).getLast?).map
          rowColumnInfo)
    ∧ (∀ r ∈ rows, (nestedGet r.TABLE_NAME r.COLUMN_NAME
        (get_all_columns rows).table_column_map).isSome = true) := by
  have h3 : ∀ t c, nestedGet t c (get_all_columns rows).table_column_map
      = ((rows.filter
          (fun r => r.TABLE_NAME == t && r.COLUMN_NAME == c)).getLast?).map
        rowColumnInfo := by
    intro t c
    rw [get_all_columns, table_column_map_foldl]
    cases h : (rows.filter (fun r => r.TABLE_NAME == t && r.COLUMN_NAME == c)).getLast?
      <;> simp [nestedGet, dictGet]
  refine ⟨?_, ?_, h3, ?_⟩
  · exact column_cache_keys_nodup rows ⟨[], []⟩ (by simp [dictKeys])
  · intro n
    rw [get_all_columns, column_cache_foldl]
    cases h : (rows.filter (fun r => r.COLUMN_NAME == n)).getLast?
      <;> simp [dictGet]
  · intro r hr
    rw [h3]
    have hmem : r ∈ rows.filter
        (fun r' => r'.TABLE_NAME == r.TABLE_NAME && r'.COLUMN_NAME == r.COLUMN_NAME) :=
      List.mem_filter.mpr ⟨hr, by simp⟩
    have hne := List.ne_nil_of_mem hmem
    rw [List.getLast?_eq_getLast_of_ne_nil hne]
    simp
    exact ⟨r, hr, rfl, rfl⟩

/-- Claim C9 (witness): with a column name c shared by tables t1 and t2,
the flat cache keeps only the last write (t2), while the per-table map
keeps both (t1, c) and (t2, c). -/
theorem claim9_witness :
    dictGet "c" (get_all_columns
        [⟨"db", "t1", "c", none, "YES", "int", none⟩,
         ⟨"db", "t2", "c", none, "YES", "text", none⟩]).column_cache
      = some (rowColumnInfo ⟨"db", "t2", "c", none, "YES", "text", none⟩)
    ∧ nestedGet "t1" "c" (get_all_columns
        [⟨"db", "t1", "c", none, "YES", "int", none⟩,
         ⟨"db", "t2", "c", none, "YES", "text", none⟩]).table_column_map
      = some (rowColumnInfo ⟨"db", "t1", "c", none, "YES", "int", none⟩)
    ∧ nestedGet "t2" "c" (get_all_columns
        [⟨"db", "t1", "c", none, "YES", "int", none⟩,
         ⟨"db", "t2", "c", none, "YES", "text", none⟩]).table_column_map
      = some (rowColumnInfo ⟨"db", "t2", "c", none, "YES", "text", none⟩) := by
  have h := claim9
    [⟨"db", "t1", "c", none, "YES", "int", none⟩,
     ⟨"db", "t2", "c", none, "YES", "text", none⟩]
  refine ⟨?_, ?_, ?_⟩
  · rw [h.2.1 "c"]
    decide
  · rw [h.2.2.1 "t1" "c"]
    decide
  · rw [h.2.2.1 "t2" "c"]
    decide

theorem find?_eq_some_split {α : Type} (p : α → Bool) (l : List α) (a : α) :
    l.find? p = some a ↔
      ∃ l1 l2, l = l1 ++ a :: l2 ∧ p a = true ∧ ∀ x ∈ l1, p x = false := by
  induction l with
  | nil => simp
  | cons b rest ih =>
    by_cases hb : p b = true
    · rw [List.find?_cons_of_pos _ hb]
      constructor
      · intro h
        obtain rfl : b = a := by simpa using h
        exact ⟨[], rest, rfl, hb, by simp⟩
      · rintro ⟨l1, l2, heq, hpa, hl1⟩
        cases l1 with
        | nil =>
          simp only [List.nil_append, List.cons.injEq] at heq
          rw [heq.1]
        | cons x xs =>
          simp only [List.cons_append, List.cons.injEq] at heq
          have hx := hl1 x (by simp)
          rw [← heq.1] at hx
          rw [hx] at hb
          exact absurd hb (by simp)
    · have hb' : p b = false := by simpa using hb
      rw [List.find?_cons_of_neg _ hb, ih]
      constructor
      · rintro ⟨l1, l2, heq, hpa, hl1⟩
        refine ⟨b :: l1, l2, by rw [heq, List.cons_append], hpa, ?_⟩
        intro x hx
        rcases List.mem_cons.mp hx with hxb | hx'
        · rw [hxb]
          exact hb'
        · exact hl1 x hx'
      · rintro ⟨l1, l2, heq, hpa, hl1⟩
        cases l1 with
        | nil =>
          simp only [List.nil_append, List.cons.injEq] at heq
          rw [← heq.1] at hpa
          rw [hpa] at hb'
          exact absurd hb' (by simp)
        | cons x xs =>
          simp only [List.cons_append, List.cons.injEq] at heq
          exact ⟨xs, l2, heq.2, hpa, fun y hy => hl1 y (by simp [hy])⟩

/-- Claim C8: get_current_query_statement scans the statement-or-
unparsable spans in document order and returns the first whose inclusive
1-based line range contains the converted cursor line; None is the normal
result when no span contains it. -/
theorem claim8 (segments : List TopSegment) (cursor_line : Nat) :
    (∀ s, s ∈ get_query_statements segments ↔
        s ∈ segments ∧ (s.kind = SegKind.statement ∨ s.kind = SegKind.unparsable))
    ∧ (get_current_query_statement segments cursor_line = none ↔
        ∀ s ∈ get_query_statements segments,
          statement_contains_line s cursor_line = false)
    ∧ (∀ st, get_current_query_statement segments cursor_line = some st →
        statement_contains_line st cursor_line = true
        ∧ ∃ l1 l2, get_query_statements segments = l1 ++ st :: l2
            ∧ ∀ s ∈ l1, statement_contains_line s cursor_line = false) := by
  refine ⟨?_, ?_, ?_⟩
  · intro s
    simp only [get_query_statements, List.mem_filter, Bool.or_eq_true, beq_iff_eq]
  · rw [get_current_query_statement, List.find?_eq_none]
    constructor
    · intro h s hs
      simpa using h s hs
    · intro h s hs
      simp [h s hs]
  · intro st h
    rw [get_current_query_statement, find?_eq_some_split] at h
    obtain ⟨l1, l2, heq, hp, hl1⟩ := h
    exact ⟨hp, l1, l2, heq, hl1⟩

/-- Claim C8 (witness): with the two statements of "select 1;\nselect 2;"
on lines 1 and 2 and the cursor on editor line 1 (document line 2), the
extractor returns only the second statement, skipping the first whose
range does not contain the line. -/
theorem claim8_witness :
    statement_contains_line ⟨SegKind.statement, 2, 2, "select 2;"⟩ 1 = true
    ∧ ∃ l1 l2, get_query_statements
          [⟨SegKind.statement, 1, 1, "select 1;"⟩, ⟨SegKind.other, 1, 1, ";"⟩,
           ⟨SegKind.statement, 2, 2, "select 2;"⟩]
        = l1 ++ ⟨SegKind.statement, 2, 2, "select 2;"⟩ :: l2
        ∧ ∀ s ∈ l1, statement_contains_line s 1 = false :=
  (claim8
    [⟨SegKind.statement, 1, 1, "select 1;"⟩, ⟨SegKind.other, 1, 1, ";"⟩,
     ⟨SegKind.statement, 2, 2, "select 2;"⟩] 1).2.2
    ⟨SegKind.statement, 2, 2, "select 2;"⟩ (by decide)

/-- Claim C7: a name is offered as a candidate (keyword, column or table)
only if the partial word is a case-insensitive prefix of it — anchored
matching, not substring search.  The hypothesis pins the partial word to a
nonempty run of word or backtick characters, the only shapes get_last_word
produces apart from the "*" fallback and exactly the patterns for which
the regex is a literal. -/
theorem claim7 (last_word n : String)
    (_hw : last_word.data ≠ [] ∧ last_word.data.all is_word_char = true) :
    (re_match_ci last_word n = true ↔
      ∃ t, lower_chars n = lower_chars last_word ++ t)
    ∧ (∀ help_cache, n ∈ keyword_candidate_words help_cache last_word →
        ∃ t, lower_chars n = lower_chars last_word ++ t)
    ∧ (∀ columns : List ColumnInfo,
        n ∈ (column_completion_items columns last_word).map (fun i => i.label) →
        ∃ t, lower_chars n = lower_chars last_word ++ t)
    ∧ (∀ tables : List TableInfo,
        n ∈ (table_completion_items tables last_word).map (fun i => i.label) →
        ∃ t, lower_chars n = lower_chars last_word ++ t) := by
  have hgen : ∀ m : String, re_match_ci last_word m = true ↔
      ∃ t, lower_chars m = lower_chars last_word ++ t := by
    intro m
    rw [re_match_ci]
    exact isPrefixOf_iff_append _ _
  refine ⟨hgen n, ?_, ?_, ?_⟩
  · intro help_cache hn
    exact (hgen n).mp (List.mem_filter.mp hn).2
  · intro columns hn
    simp only [column_completion_items, List.map_map, List.mem_map,
      List.mem_filter, Function.comp] at hn
    obtain ⟨col, ⟨_, hmatch⟩, hlabel⟩ := hn
    rw [← hlabel]
    exact (hgen col.name).mp hmatch
  · intro tables hn
    simp only [table_completion_items, List.map_map, List.mem_map,
      List.mem_filter, Function.comp] at hn
    obtain ⟨table, ⟨_, hmatch⟩, hlabel⟩ := hn
    rw [← hlabel]
    exact (hgen table.name).mp hmatch

/-- Claim C7 (witness): the partial word us matches users and USER_ID at
the start (up to case) but does not match ausers, where a substring search
would. -/
theorem claim7_witness :
    (∃ t, lower_chars "users" = lower_chars "us" ++ t)
    ∧ (∃ t, lower_chars "USER_ID" = lower_chars "us" ++ t)
    ∧ re_match_ci "us" "ausers" = false := by
  refine ⟨((claim7 "us" "users" ⟨by decide, by decide⟩).1).mp (by decide),
    ((claim7 "us" "USER_ID" ⟨by decide, by decide⟩).1).mp (by decide), by decide⟩

theorem trailing_word_run_all (s : List Char) :
    (trailing_word_run s).all is_word_char = true := by
  unfold trailing_word_run
  rw [List.all_reverse]
  exact List.all_eq_true.mpr (fun c hc => List.mem_takeWhile_imp hc)

theorem dropWhile_head_not (p : Char → Bool) (l : List Char) (c : Char)
    (h : (l.dropWhile p).head? = some c) : p c = false := by
  induction l with
  | nil => simp [List.dropWhile] at h
  | cons a t ih =>
    rw [List.dropWhile_cons] at h
    by_cases ha : p a = true
    · rw [if_pos ha] at h
      exact ih h
    · rw [if_neg ha] at h
      simp only [List.head?_cons, Option.some.injEq] at h
      rw [← h]
      simpa using ha

theorem trailing_word_run_decomp (s : List Char) :
    ∃ pre, s = pre ++ trailing_word_run s
      ∧ ∀ c, pre.getLast? = some c → is_word_char c = false := by
  refine ⟨(s.reverse.dropWhile is_word_char).reverse, ?_, ?_⟩
  · conv_lhs => rw [← List.reverse_reverse s,
      ← List.takeWhile_append_dropWhile (p := is_word_char) (l := s.reverse)]
    rw [List.reverse_append]
    rfl
  · intro c hc
    rw [List.getLast?_reverse] at hc
    exact dropWhile_head_not is_word_char _ c hc

/-- Claim C10: get_last_word returns the longest trailing run of word or
backtick characters of the cursor's line cut at the cursor (a single
trailing newline being transparent to the dollar anchor), and the literal
one-character string "*" when no such run exists; get_completion_candidates
then uses exactly that returned string as the case-insensitive matching
pattern. -/
theorem claim10 (lines : List String) (pos : Position) (line : String) (t : List Char)
    (hline : lines.get? pos.line = some line)
    (ht : t = (if (line.data.take pos.character).getLast? = some '\n'
               then (line.data.take pos.character).dropLast
               else line.data.take pos.character)) :
    ∃ w, get_last_word lines pos = Except.ok w
      ∧ get_completion_candidates_regex lines pos = Except.ok w
      ∧ ((trailing_word_run t = [] ∧ w = "*")
        ∨ (w.data = trailing_word_run t ∧ w.data ≠ []
            ∧ w.data.all is_word_char = true
            ∧ ∃ pre, t = pre ++ w.data
                ∧ ∀ c, pre.getLast? = some c → is_word_char c = false)) := by
  have hbase : last_word_matches (line.data.take pos.character)
      = (if (trailing_word_run t).isEmpty then [] else [trailing_word_run t]) := by
    simp only [last_word_matches]
    rw [← ht]
  by_cases hrun : trailing_word_run t = []
  · refine ⟨"*", ?_, ?_, Or.inl ⟨hrun, rfl⟩⟩
    · simp only [get_last_word, hline, hbase, hrun, List.isEmpty_nil, if_true]
      rfl
    · simp only [get_completion_candidates_regex, get_last_word, hline, hbase, hrun,
        List.isEmpty_nil, if_true]
      rfl
  · have hne : (trailing_word_run t).isEmpty = false := by
      simpa [List.isEmpty_eq_false] using hrun
    obtain ⟨pre, hpre, hprelast⟩ := trailing_word_run_decomp t
    refine ⟨String.mk (trailing_word_run t), ?_, ?_,
      Or.inr ⟨rfl, hrun, trailing_word_run_all t, pre, hpre, hprelast⟩⟩
    · simp only [get_last_word, hline, hbase, hne, Bool.false_eq_true, if_false]
      rfl
    · simp only [get_completion_candidates_regex, get_last_word, hline, hbase, hne,
        Bool.false_eq_true, if_false]
      rfl

/-- Claim C10 (witness): at the cursor of "select u.name from users as u
where u." (right after the dot) the run is empty and the fallback "*" is
the pattern; two characters into "users" the pattern is the trailing run
"us". -/
theorem claim10_witness :
    (∃ w, get_last_word ["select u.name from users as u where u."] ⟨0, 39⟩
        = Except.ok w
      ∧ get_completion_candidates_regex
          ["select u.name from users as u where u."] ⟨0, 39⟩ = Except.ok w
      ∧ ((trailing_word_run ("select u.name from users as u where u.".data.take 39)
            = [] ∧ w = "*")
        ∨ (w.data = trailing_word_run
              ("select u.name from users as u where u.".data.take 39)
            ∧ w.data ≠ [] ∧ w.data.all is_word_char = true
            ∧ ∃ pre, "select u.name from users as u where u.".data.take 39
                  = pre ++ w.data
                ∧ ∀ c, pre.getLast? = some c → is_word_char c = false))) := by
  have h := claim10 ["select u.name from users as u where u."] ⟨0, 39⟩
    "select u.name from users as u where u."
    ("select u.name from users as u where u.".data.take 39) rfl (by decide)
  exact h

end SqlLsp
